import Mathlib

/-!
Verification of the StockApp consolidation-analytics core against its
natural-language specification.

The Python sources are shallowly embedded as executable Lean definitions:

* `backend/stocks/services/atr_calculator.py` — true-range / ATR annotation
  (`calcGo`, `calcPass`), tight-streak counting (`countTight`), volume
  metrics (`volumeMetrics`), breakout probability (`determineProbability`)
  and the per-stock analysis pipeline (`analyzeStock`).
* `backend/stocks/services/alert_service.py` — alert-type decision
  (`determineAlertType`) and deduplicated alert emission (`processAnalysis`).
* `backend/stocks/management/commands/backfill_analysis.py` — the historical
  alert path (`backfillAlertType`, `createHistoricalAlert`).
* `backend/stocks/services/backtest_service.py` — forward-window alert
  evaluation (`evaluateAlertOutcome`) and consolidation-pattern grouping
  (`groupPatterns`).

Modelling conventions: Django `Decimal` prices are rationals (`ℚ`), calendar
dates are integers (day numbers, `ℤ`), volumes are naturals (`ℕ`, the spec
requires non-negative volume and Python's `//` on naturals is `Nat.div`).
Nullable columns are `Option`s.  Python truthiness on a numeric value
(`if not x:`) is modelled as "`none` or zero", exactly as the interpreter
evaluates it.  An ORM query
`filter(stock=s, date__lte=d).order_by('-date')[:n]` over the unique-dated
per-stock price table is modelled as `List.take n` on a list that holds the
stock's bars most-recent-first; saving the annotated window back is splicing
the annotated prefix onto the untouched remainder.
-/

/-- Breakout probability tier (`ATRAnalysis.PROBABILITY_CHOICES`). -/
inductive Prob where
  | LOW
  | MEDIUM
  | HIGH
deriving DecidableEq

/-- Alert category (`Alert.ALERT_TYPE_CHOICES`). -/
inductive AlertType where
  | CONSOLIDATION_START
  | VOLUME_SPIKE
  | BREAKOUT_READY
  | BREAKOUT_OCCURRED
deriving DecidableEq

/-- Backtest outcome status used by `BacktestService._evaluate_alert_outcome`. -/
inductive Status where
  | PENDING
  | BREAKOUT
  | NO_BREAKOUT
deriving DecidableEq

/-- One `PriceData` row: a daily OHLCV bar plus its nullable derived columns
`true_range`, `atr_14` and `daily_range`. -/
structure Bar where
  date : ℤ
  open_ : ℚ
  high : ℚ
  low : ℚ
  close : ℚ
  volume : ℕ
  trueRange : Option ℚ := none
  atr14 : Option ℚ := none
  dailyRange : Option ℚ := none
deriving DecidableEq

/-- The `ATRCalculator.__init__` configuration values read from settings. -/
structure Config where
  atrPeriod : ℕ
  consolidationThreshold : ℕ
  volumeSpikeMultiplier : ℚ
  volumeAvgPeriod : ℕ
deriving DecidableEq

/-- Default settings: `ATR_PERIOD = 14`, `CONSOLIDATION_THRESHOLD_DAYS = 3`,
`VOLUME_SPIKE_MULTIPLIER = 1.5`, `VOLUME_AVG_PERIOD = 20`. -/
def defaultCfg : Config := ⟨14, 3, 3 / 2, 20⟩

/-- The true-range formula of `_calculate_atr_for_stock` (lines 178–186):
`high − low` when there is no previous bar, otherwise the maximum of
`high − low`, `|high − prev_close|` and `|low − prev_close|`. -/
def trueRangeOf (pc : Option ℚ) (b : Bar) : ℚ :=
  match pc with
  | none => b.high - b.low
  | some c => max (b.high - b.low) (max |b.high - c| |b.low - c|)

/-- One step of `ATRCalculator._calculate_atr_for_stock`'s loop over the
ascending-by-date window.  State carried between iterations: the previous
bar's close (`pc`), the running index `i`, the true ranges assigned so far
(`trs`) and the previous bar's `atr_14` as it stands after that iteration
(`pa`).  The Python truthiness tests are kept verbatim: the first-ATR sum
filters out falsy (zero) true ranges, and a falsy (`None`-or-zero) prior ATR
skips the Wilder update, leaving the bar's stored `atr_14` unchanged.  The
row save also refreshes `daily_range` (`PriceData.save`), which only fires
when `high` and `low` are truthy. -/
def calcGo (p : ℕ) : List Bar → Option ℚ → ℕ → List ℚ → Option ℚ → List Bar
  | [], _, _, _, _ => []
  | b :: rest, pc, i, trs, pa =>
    let tr : ℚ := trueRangeOf pc b
    let trs' := trs ++ [tr]
    let atr : Option ℚ :=
      if i + 1 < p then b.atr14
      else if i + 1 = p then some ((trs'.filter (fun t => ¬t = 0)).sum / p)
      else
        -- `if prev_atr:` — falsy for a missing (`None`) and for a zero
        -- prior ATR alike, expressed as `pa.getD 0 = 0`
        if pa.getD 0 = 0 then b.atr14
        else some ((pa.getD 0 * (p - 1) + tr) / p)
    let dr : Option ℚ :=
      if ¬b.high = 0 ∧ ¬b.low = 0 then some (b.high - b.low) else b.dailyRange
    { b with trueRange := some tr, atr14 := atr, dailyRange := dr } ::
      calcGo p rest (some b.close) (i + 1) trs' atr

/-- Embedding of `ATRCalculator._calculate_atr_for_stock` on an ascending-by-date bar
list: annotate every bar with `true_range` and (once warmed up) `atr_14`. -/
def calcPass (p : ℕ) (bars : List Bar) : List Bar :=
  calcGo p bars none 0 [] none

/-- Embedding of `ATRCalculator._count_consecutive_tight_days`: walk the most-recent-first
list, stop at the first bar whose `atr_14` or `daily_range` is falsy
(`None` or zero) or whose range exceeds its ATR. -/
def countTight : List Bar → ℕ
  | [] => 0
  | b :: rest =>
    match b.atr14, b.dailyRange with
    | some a, some r =>
      if a = 0 ∨ r = 0 then 0
      else if r ≤ a then 1 + countTight rest
      else 0
    | some _, none => 0
    | none, _ => 0

/-- Embedding of `ATRCalculator._calculate_volume_metrics`: trailing average volume over
the `volume_avg_period` bars that precede the most recent one (integer floor
division), and the current-to-average volume ratio (`None` when fewer than
two bars exist or the average is zero). -/
def volumeMetrics (cfg : Config) (l : List Bar) : Option ℕ × Option ℚ :=
  if l.length < 2 then (none, none)
  else
    match l with
    | [] => (none, none)
    | cur :: rest =>
      let vols := (rest.take cfg.volumeAvgPeriod).map Bar.volume
      if vols = [] then (none, none)
      else
        let avg := vols.sum / vols.length
        if avg = 0 then (some avg, none)
        else (some avg, some ((cur.volume : ℚ) / (avg : ℚ)))

/-- Embedding of `ATRCalculator._determine_probability` (the `is_consolidating` argument
is accepted but unused, as in the source). -/
def determineProbability (cfg : Config) (tight : ℕ) (_consolidating : Bool)
    (spike : Bool) : Prob :=
  if cfg.consolidationThreshold ≤ tight then
    if spike then Prob.HIGH else Prob.MEDIUM
  else Prob.LOW

/-- One `ATRAnalysis` row.  `confidence_score` is not among the
`update_or_create` defaults in `analyze_stock`, so a freshly created row
carries the model default `0` and an update leaves the stored value
untouched. -/
structure AnalysisRecord where
  stockId : ℕ
  date : ℤ
  currentAtr : ℚ
  currentDailyRange : ℚ
  consecutiveTightDays : ℕ
  avgVolume20d : Option ℕ
  currentVolume : ℕ
  volumeRatio : Option ℚ
  isConsolidating : Bool
  volumeSpikeDetected : Bool
  breakoutProbability : Prob
  priceAtAnalysis : ℚ
  confidenceScore : ℤ
deriving DecidableEq

/-- Key predicate for the `(stock, date)` uniqueness of `ATRAnalysis`. -/
def analysisKey (sid : ℕ) (d : ℤ) (x : AnalysisRecord) : Bool :=
  x.stockId = sid ∧ x.date = d

/-- Embedding of `ATRAnalysis.objects.update_or_create(stock=…, date=…, defaults=…)`:
if a row with the key exists it is updated with the defaults —
`confidence_score` is not a default, so the old stored value survives —
otherwise the candidate row (with the model-default score `0`) is inserted.
Returns the row as stored together with the updated table. -/
def upsertAnalysis (astore : List AnalysisRecord) (rec : AnalysisRecord) :
    AnalysisRecord × List AnalysisRecord :=
  match astore.find? (analysisKey rec.stockId rec.date) with
  | some old =>
    let merged := { rec with confidenceScore := old.confidenceScore }
    (merged, astore.map (fun x =>
      if analysisKey rec.stockId rec.date x then merged else x))
  | none => (rec, rec :: astore)

/-- The tail of `ATRCalculator.analyze_stock` after the refetch: the guards
`if not price_list` and `if not latest_price.atr_14` (falsy for `None` and
for zero), and then the streak, volume, consolidation and probability
computation feeding `update_or_create`.  `window2` is the refetched window
of the most recent `volume_avg_period + 5` annotated bars. -/
def analyzeFinish (cfg : Config) (sid : ℕ) (adate : ℤ) (window2 : List Bar)
    (astore : List AnalysisRecord) :
    Option AnalysisRecord × List AnalysisRecord :=
  match window2 with
  | [] => (none, astore)
  | latest :: _ =>
    match latest.atr14 with
    | none => (none, astore)
    | some a =>
      if a = 0 then (none, astore)
      else
        let tight := countTight window2
        let vm := volumeMetrics cfg window2
        let consolidating : Bool := cfg.consolidationThreshold ≤ tight
        let spike : Bool :=
          match vm.2 with
          | some ratio => decide (cfg.volumeSpikeMultiplier ≤ ratio) && consolidating
          | none => false
        let prob := determineProbability cfg tight consolidating spike
        let rec0 : AnalysisRecord :=
          { stockId := sid
            date := adate
            currentAtr := a
            currentDailyRange := latest.dailyRange.getD 0
            consecutiveTightDays := tight
            avgVolume20d := vm.1
            currentVolume := latest.volume
            volumeRatio := vm.2
            isConsolidating := consolidating
            volumeSpikeDetected := spike
            breakoutProbability := prob
            priceAtAnalysis := latest.close
            confidenceScore := 0 }
        let up := upsertAnalysis astore rec0
        (some up.1, up.2)

/-- Embedding of `ATRCalculator.analyze_stock` for one stock and analysis date.

`store` holds the stock's bars dated on or before the analysis date,
most-recent-first (what the two `filter(date__lte=…).order_by('-date')`
queries range over); `astore` is the `ATRAnalysis` table.  Returns the
analysis row produced (or `none` on insufficient data / missing ATR), the
price table after `_calculate_atr_for_stock`'s saves, and the analysis
table after `update_or_create`. -/
def analyzeStock (cfg : Config) (sid : ℕ) (adate : ℤ) (store : List Bar)
    (astore : List AnalysisRecord) :
    Option AnalysisRecord × List Bar × List AnalysisRecord :=
  let fetchN := cfg.atrPeriod + cfg.volumeAvgPeriod + 5
  let window := store.take fetchN
  if window.length < cfg.atrPeriod then (none, store, astore)
  else
    let annotated := (calcPass cfg.atrPeriod window.reverse).reverse
    let store' := annotated ++ store.drop fetchN
    let fin := analyzeFinish cfg sid adate
      (store'.take (cfg.volumeAvgPeriod + 5)) astore
    (fin.1, store', fin.2)

/-- One `Alert` row: its stock, category, the calendar day of its
`created_at` timestamp, and the date of its linked `ATRAnalysis`. -/
structure Alert where
  stockId : ℕ
  alertType : AlertType
  createdDate : ℤ
  analysisDate : ℤ
deriving DecidableEq

/-- Embedding of `AlertService._determine_alert_type`: first match wins among HIGH
probability, volume spike while consolidating, and a streak exactly at the
consolidation threshold (`c`, settings default 3). -/
def determineAlertType (c : ℕ) (a : AnalysisRecord) : Option AlertType :=
  if a.breakoutProbability = Prob.HIGH then some AlertType.BREAKOUT_READY
  else if a.volumeSpikeDetected && a.isConsolidating then
    some AlertType.VOLUME_SPIKE
  else if a.consecutiveTightDays = c then some AlertType.CONSOLIDATION_START
  else none

/-- The duplicate filter of `AlertService.process_analysis`:
`Alert.objects.filter(stock=…, alert_type=…, created_at__date=analysis.date)`
— it matches on the existing alert's wall-clock creation date. -/
def liveDup (a : AnalysisRecord) (t : AlertType) (e : Alert) : Bool :=
  e.stockId = a.stockId ∧ e.alertType = t ∧ e.createdDate = a.date

/-- Embedding of `AlertService.process_analysis`: decide the alert type, then suppress
when an alert of that type for the stock already exists with
`created_at__date` equal to the analysis date; otherwise create the alert
with today's wall-clock creation date (`today`) and the analysis linked. -/
def processAnalysis (c : ℕ) (existing : List Alert) (a : AnalysisRecord)
    (today : ℤ) : Option Alert × List Alert :=
  match determineAlertType c a with
  | none => (none, existing)
  | some t =>
    if existing.any (liveDup a t) then
      (none, existing)
    else
      let alert : Alert := ⟨a.stockId, t, today, a.date⟩
      (some alert, alert :: existing)

/-- The alert-type decision inlined in
`backfill_analysis.Command._create_historical_alert` (same branches as
`AlertService._determine_alert_type`). -/
def backfillAlertType (c : ℕ) (a : AnalysisRecord) : Option AlertType :=
  if a.breakoutProbability = Prob.HIGH then some AlertType.BREAKOUT_READY
  else if a.volumeSpikeDetected && a.isConsolidating then
    some AlertType.VOLUME_SPIKE
  else if a.consecutiveTightDays = c then some AlertType.CONSOLIDATION_START
  else none

/-- The duplicate filter of `_create_historical_alert`:
`Alert.objects.filter(stock=…, alert_type=…, analysis__date=analysis.date)`
— it matches on the linked analysis's (triggering) date. -/
def histDup (a : AnalysisRecord) (t : AlertType) (e : Alert) : Bool :=
  e.stockId = a.stockId ∧ e.alertType = t ∧ e.analysisDate = a.date

/-- Embedding of `backfill_analysis.Command._create_historical_alert`: suppress when an
alert of the type already exists whose linked analysis has this date
(`analysis__date`), then create the alert and rewrite its `created_at` to
the analysis date. -/
def createHistoricalAlert (c : ℕ) (existing : List Alert)
    (a : AnalysisRecord) : Option Alert × List Alert :=
  match backfillAlertType c a with
  | none => (none, existing)
  | some t =>
    if existing.any (histDup a t) then
      (none, existing)
    else
      let alert : Alert := ⟨a.stockId, t, a.date, a.date⟩
      (some alert, alert :: existing)

/-- From `BacktestService.__init__`: the breakout threshold is hard-coded to 2%. -/
def breakoutThresholdPct : ℚ := 2

/-- From `BacktestService.__init__`: the alert lookforward window is 5 days. -/
def lookforwardDays : ℤ := 5

/-- Rounding to two decimal places, modelling `round(x, 2)` on the exact
decimal values the service computes. -/
def round2 (q : ℚ) : ℚ := (⌊q * 100 + 1 / 2⌋ : ℚ) / 100

/-- The outcome dictionary built by
`BacktestService._evaluate_alert_outcome`. -/
structure Outcome where
  status : Status
  priceAtAlert : Option ℚ
  maxPriceAfter : Option ℚ
  minPriceAfter : Option ℚ
  maxGainPct : Option ℚ
  maxLossPct : Option ℚ
  daysToBreakout : Option ℤ
deriving DecidableEq

/-- One step of the running-maximum loop of `_evaluate_alert_outcome`:
keep the first bar whose high strictly exceeds every earlier high, with its
date. -/
def maxHighStep (acc : Option (ℚ × ℤ)) (b : Bar) : Option (ℚ × ℤ) :=
  match acc with
  | none => some (b.high, b.date)
  | some m => if m.1 < b.high then some (b.high, b.date) else acc

/-- The running-maximum fold of `_evaluate_alert_outcome` over highs. -/
def maxHighFold (future : List Bar) : Option (ℚ × ℤ) :=
  future.foldl maxHighStep none

/-- One step of the running-minimum loop of `_evaluate_alert_outcome`. -/
def minLowStep (acc : Option (ℚ × ℤ)) (b : Bar) : Option (ℚ × ℤ) :=
  match acc with
  | none => some (b.low, b.date)
  | some m => if b.low < m.1 then some (b.low, b.date) else acc

/-- The running-minimum fold of `_evaluate_alert_outcome` over lows. -/
def minLowFold (future : List Bar) : Option (ℚ × ℤ) :=
  future.foldl minLowStep none

/-- Embedding of `BacktestService._evaluate_alert_outcome` for one alert triggered on
`alertDate`, evaluated at wall-clock date `now` against the stock's bar
table `store` (ascending by date).  PENDING when there is no trigger price,
when the five-day window has not elapsed, or when the window holds no bars;
otherwise gains/losses relative to the trigger close decide
BREAKOUT/NO_BREAKOUT.  Python truthiness is kept: a falsy (zero) maximum
price leaves the gain unset, and the breakout test is
`max_gain_pct and max_gain_pct >= threshold`. -/
def evaluateAlertOutcome (now alertDate : ℤ) (store : List Bar) : Outcome :=
  match (store.filter (fun b => b.date ≤ alertDate)).getLast? with
  | none => ⟨Status.PENDING, none, none, none, none, none, none⟩
  | some pb =>
    let endDate := alertDate + lookforwardDays
    if now < endDate then
      ⟨Status.PENDING, some pb.close, none, none, none, none, none⟩
    else
      let future := store.filter (fun b => alertDate < b.date ∧ b.date ≤ endDate)
      if future.isEmpty then
        ⟨Status.PENDING, some pb.close, none, none, none, none, none⟩
      else
        let maxP := maxHighFold future
        let minP := minLowFold future
        let maxPrice : Option ℚ :=
          match maxP with
          | some m => if m.1 = 0 then none else some m.1
          | none => none
        let minPrice : Option ℚ :=
          match minP with
          | some m => if m.1 = 0 then none else some m.1
          | none => none
        let maxGain : Option ℚ :=
          match maxP with
          | some m =>
            if m.1 = 0 then none
            else some (round2 ((m.1 - pb.close) / pb.close * 100))
          | none => none
        let daysToB : Option ℤ :=
          match maxP with
          | some m => if m.1 = 0 then none else some (m.2 - alertDate)
          | none => none
        let maxLoss : Option ℚ :=
          match minP with
          | some m =>
            if m.1 = 0 then none
            else some (round2 ((m.1 - pb.close) / pb.close * 100))
          | none => none
        let isBreakout : Bool :=
          match maxGain with
          | some g => ¬g = 0 ∧ breakoutThresholdPct ≤ g
          | none => false
        ⟨if isBreakout then Status.BREAKOUT else Status.NO_BREAKOUT,
          some pb.close, maxPrice, minPrice, maxGain, maxLoss, daysToB⟩

/-- One entry of the `patterns` list built by
`BacktestService.analyze_consolidation_patterns`. -/
structure PatternRec where
  stockId : ℕ
  startDate : ℤ
  tightDays : ℕ
  probability : Prob
  confidence : ℤ
deriving DecidableEq

/-- A fresh pattern opened at a consolidating analysis row. -/
def mkPattern (a : AnalysisRecord) : PatternRec :=
  ⟨a.stockId, a.date, a.consecutiveTightDays, a.breakoutProbability,
    a.confidenceScore⟩

/-- One step of the grouping loop in `analyze_consolidation_patterns`.
State: the `current_stock` tracker and the pattern list built so far
(kept reversed, head = `patterns[-1]`).  A new pattern opens exactly when
the stock id differs from `current_stock`; otherwise the last pattern's
recorded streak/probability/confidence are overwritten only when the row's
streak strictly exceeds the recorded streak. -/
def groupStep (st : Option ℕ × List PatternRec) (a : AnalysisRecord) :
    Option ℕ × List PatternRec :=
  if st.1 ≠ some a.stockId then (some a.stockId, mkPattern a :: st.2)
  else
    match st.2 with
    | [] => st
    | p :: ps =>
      if p.tightDays < a.consecutiveTightDays then
        (st.1,
          { p with
            tightDays := a.consecutiveTightDays
            probability := a.breakoutProbability
            confidence := a.confidenceScore } :: ps)
      else st

/-- The grouping phase of `analyze_consolidation_patterns`, applied to the
consolidating analyses (`is_consolidating=True`, streak ≥ 3) ordered by
stock then date. -/
def groupPatterns (l : List AnalysisRecord) : List PatternRec :=
  (l.foldl groupStep (none, [])).2.reverse

/-! ### Specification-side definitions

The definitions below follow the spec's words (not the source) and exist
only to be compared against the embedded code. -/

/-- True ranges of an ascending bar sequence, by the spec's words: the
first bar's true range is `high − low`, every later one is
`max(high − low, |high − prev_close|, |low − prev_close|)`; generalised
over an optional predecessor close so that it can run from mid-sequence. -/
def specTrueRangesFrom : Option ℚ → List Bar → List ℚ
  | _, [] => []
  | pc, b :: rest => trueRangeOf pc b :: specTrueRangesFrom (some b.close) rest

/-- True ranges of an ascending bar sequence, by the spec's words. -/
def specTrueRanges (bars : List Bar) : List ℚ :=
  specTrueRangesFrom none bars

/-- Wilder ATR over a true-range list, by the spec's words: `none` before
the warm-up point, the plain arithmetic mean of the first `p` true ranges
at index `p − 1`, and `(prior_atr * (p − 1) + tr) / p` afterwards.  State:
index `i`, true ranges seen so far, prior ATR. -/
def specAtrGo (p : ℕ) : List ℚ → ℕ → List ℚ → Option ℚ → List (Option ℚ)
  | [], _, _, _ => []
  | tr :: rest, i, trs, pa =>
    let trs' := trs ++ [tr]
    let atr : Option ℚ :=
      if i + 1 < p then none
      else if i + 1 = p then some (trs'.sum / p)
      else some ((pa.getD 0 * (p - 1) + tr) / p)
    atr :: specAtrGo p rest (i + 1) trs' atr

/-- Wilder ATR column for a true-range list, by the spec's words. -/
def specAtr (p : ℕ) (trs : List ℚ) : List (Option ℚ) :=
  specAtrGo p trs 0 [] none

/-- The claim's tightness predicate: ATR and range are both defined and
`daily_range ≤ atr` (zero values allowed). -/
def specTightDay (b : Bar) : Bool :=
  match b.atr14, b.dailyRange with
  | some a, some r => r ≤ a
  | _, _ => false

/-- The claim's streak count: consecutive tight days at the head of the
most-recent-first list, stopping at the first non-tight or undefined day. -/
def specCountTight : List Bar → ℕ
  | [] => 0
  | b :: rest => if specTightDay b then 1 + specCountTight rest else 0

/-- The code's tightness test as a Boolean predicate (used to state what
the loop in `_count_consecutive_tight_days` actually scans for): ATR and
range defined, truthy (non-zero), and `daily_range ≤ atr`. -/
def codeTightDay (b : Bar) : Bool :=
  match b.atr14, b.dailyRange with
  | some a, some r => ¬a = 0 ∧ ¬r = 0 ∧ r ≤ a
  | _, _ => false

/-- Pattern grouping by the claim's words: a new pattern starts whenever a
consolidating row's streak is a new maximum for its symbol in the scan
(and, as in any grouping, when the symbol changes).  State: the current
symbol with the largest streak seen for it, and the patterns so far. -/
def specGroupStep (st : Option (ℕ × ℕ) × List PatternRec)
    (a : AnalysisRecord) : Option (ℕ × ℕ) × List PatternRec :=
  match st.1 with
  | some (sid, best) =>
    if sid = a.stockId then
      if best < a.consecutiveTightDays then
        (some (sid, a.consecutiveTightDays), mkPattern a :: st.2)
      else st
    else (some (a.stockId, a.consecutiveTightDays), mkPattern a :: st.2)
  | none => (some (a.stockId, a.consecutiveTightDays), mkPattern a :: st.2)

/-- Pattern grouping by the claim's words ("a new pattern starts whenever
the streak length resets to a new maximum for that symbol in the scan"). -/
def specGroupPatterns (l : List AnalysisRecord) : List PatternRec :=
  (l.foldl specGroupStep (none, [])).2.reverse

/-- Modelled from the spec: the `confidence_score` computation is not under
`src/` — `ATRAnalysis.confidence_score` is only declared there (default 0,
help text "0-100 composite score: tightness + volume + days") and
`ai_optimizer.py` documents the operational formula ("tight days (max 40
pts), volume ratio (max 30 pts), and range tightness (max 30 pts)").  Per
the spec's contract, the score is the sum of a tightness-of-streak
sub-score capped at 40, a volume-ratio sub-score capped at 30 and a
range-tightness sub-score capped at 30, clamped to [0, 100]; the exact
weighting curves are internal tuning. -/
def confidenceScore (streakSub volSub tightSub : ℚ) : ℚ :=
  min 100 (max 0 (min streakSub 40 + min volSub 30 + min tightSub 30))

/-! ### Auxiliary definitions used in theorem statements -/

/-- The highest high of a bar list ("the highest high among the
forward-window bars"). -/
def highestHigh : List Bar → ℚ
  | [] => 0
  | b :: rest => rest.foldl (fun m x => max m x.high) b.high

/-- The lowest low of a bar list ("the lowest low among the forward-window
bars"). -/
def lowestLow : List Bar → ℚ
  | [] => 0
  | b :: rest => rest.foldl (fun m x => min m x.low) b.low

/-- In-symbol peak tracking: successive analyses overwrite a pattern's
recorded streak/probability/confidence exactly when their streak strictly
exceeds the recorded streak (the `elif` branch of the grouping loop). -/
def peakUpdate (q : PatternRec) (a : AnalysisRecord) : PatternRec :=
  if q.tightDays < a.consecutiveTightDays then
    { q with
      tightDays := a.consecutiveTightDays
      probability := a.breakoutProbability
      confidence := a.confidenceScore }
  else q

/-! ### Concrete sample data for witnesses and counterexamples -/

/-- A plain bar with the given date, high, low and close, and volume 100. -/
def mkBar (d : ℤ) (h l c : ℚ) : Bar :=
  { date := d, open_ := c, high := h, low := l, close := c, volume := 100 }

/-- Fifteen perfectly flat bars (high = low = close = 10), ascending. -/
def flatAsc : List Bar := (List.range 15).map (fun i => mkBar i 10 10 10)

/-- The flat series as a most-recent-first store. -/
def flatStore : List Bar := flatAsc.reverse

/-- Fourteen bars with a constant range of 1 (high 11, low 10), ascending
dates 1..14. -/
def demoAsc : List Bar := (List.range 14).map (fun i => mkBar (i + 1) 11 10 10)

/-- The fourteen-bar series as a most-recent-first store. -/
def demoStore : List Bar := demoAsc.reverse

/-- A fallback `AnalysisRecord` used only to extract concrete results. -/
def dummyAnalysis : AnalysisRecord :=
  { stockId := 0, date := 0, currentAtr := 0, currentDailyRange := 0,
    consecutiveTightDays := 0, avgVolume20d := none, currentVolume := 0,
    volumeRatio := none, isConsolidating := false,
    volumeSpikeDetected := false, breakoutProbability := Prob.LOW,
    priceAtAnalysis := 0, confidenceScore := 0 }

/-- The analysis row `analyze_stock` produces on `demoStore` (stock 1,
date 20, default settings). -/
def demoAnalysis : AnalysisRecord :=
  ((analyzeStock defaultCfg 1 20 demoStore []).1).getD dummyAnalysis

/-- A consolidating analysis row for grouping examples: stock `sid`,
date `d`, streak `t`, MEDIUM probability, confidence 7. -/
def consolAnalysis (sid : ℕ) (d : ℤ) (t : ℕ) : AnalysisRecord :=
  { stockId := sid, date := d, currentAtr := 1, currentDailyRange := 1,
    consecutiveTightDays := t, avgVolume20d := none, currentVolume := 100,
    volumeRatio := none, isConsolidating := true,
    volumeSpikeDetected := false, breakoutProbability := Prob.MEDIUM,
    priceAtAnalysis := 1, confidenceScore := 7 }

/-- A HIGH-probability analysis row (stock 1, date 0) that triggers a
BREAKOUT_READY alert. -/
def demoHigh : AnalysisRecord :=
  { consolAnalysis 1 0 5 with breakoutProbability := Prob.HIGH }

/-- A bar whose ATR is defined and positive but whose daily range is
exactly zero (a flat day inside an otherwise volatile series). -/
def zeroRangeBar : Bar :=
  { date := 0, open_ := 5, high := 5, low := 5, close := 5, volume := 1,
    atr14 := some 1, dailyRange := some 0 }

/-- Price table for the backtest example of the spec: trigger bar at date 0
with close 100, then five forward bars with highs 101, 103, 102.5, 99, 98
and lows 99, 100, 98, 95, 94 (ascending by date). -/
def btDemo : List Bar :=
  [mkBar 0 100 100 100,
   mkBar 1 101 99 100,
   mkBar 2 103 100 101,
   mkBar 3 (205 / 2) 98 99,
   mkBar 4 99 95 96,
   mkBar 5 98 94 95]

/-- The trigger bar of `btDemo`. -/
def btTrigger : Bar := mkBar 0 100 100 100

/-! ### C3 — tight-streak counting -/

/-- C3 (counterexample): a day whose ATR is defined and positive and whose
daily range is defined and equal to zero is tight under the claim's
definition (`daily_range ≤ atr`, both defined), yet the code's streak
counter returns 0 on it: the truthiness test `not price.daily_range` also
stops at a zero range. -/
theorem tight_streak_zero_range_counterexample :
    countTight [zeroRangeBar] = 0 ∧ specCountTight [zeroRangeBar] = 1 := by
  constructor <;> rfl

/-- C3 (amended): the streak counter returns the length of the maximal
prefix of the most-recent-first list whose days have a defined and non-zero
ATR and daily range with `daily_range ≤ atr`; it stops at the first day
failing that test (undefined or zero ATR/range, or range above ATR), with
no look-ahead and no skipping. -/
theorem tight_streak_counts_head_run (l : List Bar) :
    countTight l = (l.takeWhile codeTightDay).length := by
  induction l with
  | nil => rfl
  | cons b rest ih =>
    simp only [countTight, List.takeWhile]
    cases ha : b.atr14 with
    | none => simp [codeTightDay, ha]
    | some a =>
      cases hr : b.dailyRange with
      | none => simp [codeTightDay, ha, hr]
      | some r =>
        rcases eq_or_ne a 0 with h0a | h0a
        · simp [codeTightDay, ha, hr, h0a]
        · rcases eq_or_ne r 0 with h0r | h0r
          · simp [codeTightDay, ha, hr, h0a, h0r]
          · by_cases hle : r ≤ a
            · simp [codeTightDay, ha, hr, h0a, h0r, hle, ih, Nat.add_comm]
            · simp [codeTightDay, ha, hr, h0a, h0r, hle]

/-! ### C5 — alert-type priority -/

/-- C5: both the alert service and the backfill command map an analysis to
at most one alert type, in fixed priority order with first match winning:
HIGH probability gives BREAKOUT_READY; otherwise a volume spike while
consolidating gives VOLUME_SPIKE; otherwise a streak exactly equal to the
consolidation threshold (settings default 3 — equality, not "at least")
gives CONSOLIDATION_START; otherwise no alert. -/
theorem alert_type_priority (c : ℕ) (a : AnalysisRecord) :
    determineAlertType c a = backfillAlertType c a ∧
    (determineAlertType c a = some AlertType.BREAKOUT_READY ↔
      a.breakoutProbability = Prob.HIGH) ∧
    (determineAlertType c a = some AlertType.VOLUME_SPIKE ↔
      a.breakoutProbability ≠ Prob.HIGH ∧
      a.volumeSpikeDetected = true ∧ a.isConsolidating = true) ∧
    (determineAlertType c a = some AlertType.CONSOLIDATION_START ↔
      a.breakoutProbability ≠ Prob.HIGH ∧
      ¬(a.volumeSpikeDetected = true ∧ a.isConsolidating = true) ∧
      a.consecutiveTightDays = c) ∧
    (determineAlertType c a = none ↔
      a.breakoutProbability ≠ Prob.HIGH ∧
      ¬(a.volumeSpikeDetected = true ∧ a.isConsolidating = true) ∧
      a.consecutiveTightDays ≠ c) := by
  unfold determineAlertType backfillAlertType
  split_ifs with h1 h2 h3 <;>
    simp_all [Bool.and_eq_true]

/-! ### C4 — alert deduplication -/

/-- C4 (counterexample): the live alert path does not key its duplicate
check on the triggering analysis date — it filters on
`created_at__date = analysis.date`.  Invoked twice on a wall-clock day
(here day 1) later than the triggering analysis date (day 0), it emits two
BREAKOUT_READY alerts for the same stock, type, and triggering date. -/
theorem alert_dedup_counterexample :
    ((processAnalysis 3 [] demoHigh 1).1).isSome = true ∧
    ((processAnalysis 3 (processAnalysis 3 [] demoHigh 1).2 demoHigh 1).1).isSome
      = true := by
  constructor <;> rfl

/-- C4 (amended): `process_analysis` compares existing alerts' wall-clock
creation date to the triggering analysis date, so its at-most-one guarantee
holds when the decider runs on the analysis date itself: a second
invocation on that same day always returns none.  The backfill path keys
its check on the linked analysis's date (and backdates `created_at`), so
its second invocation returns none unconditionally. -/
theorem alert_dedup_same_day (c : ℕ) (ex : List Alert) (a : AnalysisRecord) :
    (processAnalysis c (processAnalysis c ex a a.date).2 a a.date).1 = none ∧
    (createHistoricalAlert c (createHistoricalAlert c ex a).2 a).1 = none := by
  constructor
  · cases ht : determineAlertType c a with
    | none => simp [processAnalysis, ht]
    | some t =>
      by_cases hdup : ex.any (liveDup a t) = true
      · have hfst : processAnalysis c ex a a.date = (none, ex) := by
          simp [processAnalysis, ht, hdup]
        rw [hfst]
        simp [processAnalysis, ht, hdup]
      · simp only [Bool.not_eq_true] at hdup
        have hfst : processAnalysis c ex a a.date =
            (some ⟨a.stockId, t, a.date, a.date⟩,
              (⟨a.stockId, t, a.date, a.date⟩ : Alert) :: ex) := by
          simp [processAnalysis, ht, hdup]
        rw [hfst]
        simp [processAnalysis, ht, List.any_cons, liveDup]
  · cases ht : backfillAlertType c a with
    | none => simp [createHistoricalAlert, ht]
    | some t =>
      by_cases hdup : ex.any (histDup a t) = true
      · have hfst : createHistoricalAlert c ex a = (none, ex) := by
          simp [createHistoricalAlert, ht, hdup]
        rw [hfst]
        simp [createHistoricalAlert, ht, hdup]
      · simp only [Bool.not_eq_true] at hdup
        have hfst : createHistoricalAlert c ex a =
            (some ⟨a.stockId, t, a.date, a.date⟩,
              (⟨a.stockId, t, a.date, a.date⟩ : Alert) :: ex) := by
          simp [createHistoricalAlert, ht, hdup]
        rw [hfst]
        simp [createHistoricalAlert, ht, List.any_cons, histDup]

/-! ### C2 — confidence score contract (spec-modelled) -/

/-- C2: for any monotone weighting curves for the three sub-scores, the
composite confidence score — the tightness-of-streak component capped at
40 plus the volume-ratio component capped at 30 plus the range-tightness
component capped at 30, clamped to [0, 100] — always lies in [0, 100] and
is monotonically non-decreasing in streak length, volume ratio and
tightness margin. -/
theorem confidence_score_contract (f g h : ℚ → ℚ)
    (hf : Monotone f) (hg : Monotone g) (hh : Monotone h)
    (s s' v v' t t' : ℚ) (hs : s ≤ s') (hv : v ≤ v') (ht : t ≤ t') :
    0 ≤ confidenceScore (f s) (g v) (h t) ∧
    confidenceScore (f s) (g v) (h t) ≤ 100 ∧
    confidenceScore (f s) (g v) (h t) ≤ confidenceScore (f s') (g v') (h t') := by
  refine ⟨?_, ?_, ?_⟩
  · exact le_min (by norm_num) (le_max_left 0 _)
  · exact min_le_left _ _
  · unfold confidenceScore
    have h1 : min (f s) 40 ≤ min (f s') 40 := min_le_min (hf hs) le_rfl
    have h2 : min (g v) 30 ≤ min (g v') 30 := min_le_min (hg hv) le_rfl
    have h3 : min (h t) 30 ≤ min (h t') 30 := min_le_min (hh ht) le_rfl
    have hsum := add_le_add (add_le_add h1 h2) h3
    exact min_le_min le_rfl (max_le_max le_rfl hsum)

/-- C2 (witness): the contract instantiated with identity weighting curves
at concrete inputs. -/
theorem confidence_score_contract_witness :
    0 ≤ confidenceScore 1 2 3 ∧ confidenceScore 1 2 3 ≤ 100 ∧
    confidenceScore 1 2 3 ≤ confidenceScore 4 5 6 :=
  confidence_score_contract id id id monotone_id monotone_id monotone_id
    1 4 2 5 3 6 (by norm_num) (by norm_num) (by norm_num)

/-! ### C8 — consolidation-pattern grouping -/

/-- C8 (counterexample): for a single symbol whose consolidating analyses
have streaks 3 then 4, the code produces one pattern (patterns open only at
a symbol change), while grouping that starts a new pattern at each new
streak maximum for the symbol — the claim's wording — produces two.  With
streaks 3, 4, 3, 4 (two separate episodes) the code still produces a
single pattern: a streak reset never opens a new one. -/
theorem pattern_grouping_counterexample :
    (groupPatterns [consolAnalysis 1 0 3, consolAnalysis 1 1 4]).length = 1 ∧
    (specGroupPatterns [consolAnalysis 1 0 3, consolAnalysis 1 1 4]).length = 2 ∧
    (groupPatterns [consolAnalysis 1 0 3, consolAnalysis 1 1 4,
      consolAnalysis 1 2 3, consolAnalysis 1 3 4]).length = 1 := by
  refine ⟨rfl, rfl, rfl⟩

/-! ### Helper lemmas about the analysis pipeline -/

/-- The streak counter never counts past the end of its input list. -/
lemma countTight_le_length (l : List Bar) : countTight l ≤ l.length := by
  induction l with
  | nil => simp [countTight]
  | cons b rest ih =>
    cases ha : b.atr14 with
    | none => simp [countTight, ha]
    | some a =>
      cases hr : b.dailyRange with
      | none => simp [countTight, ha, hr]
      | some r =>
        simp only [countTight, ha, hr, List.length_cons]
        split_ifs <;> omega

/-- The row handed back by the upsert carries the candidate's streak. -/
lemma upsert_fst_tight (astore : List AnalysisRecord) (r : AnalysisRecord) :
    (upsertAnalysis astore r).1.consecutiveTightDays =
      r.consecutiveTightDays := by
  unfold upsertAnalysis
  split <;> rfl

/-- Whenever enough bars exist, the price table after `analyze_stock` is
the annotated window spliced onto the untouched remainder, in every branch
of the pipeline. -/
lemma analyzeStock_snd_store (cfg : Config) (sid : ℕ) (adate : ℤ)
    (store : List Bar) (astore : List AnalysisRecord)
    (hguard : ¬store.length < cfg.atrPeriod) :
    (analyzeStock cfg sid adate store astore).2.1 =
      (calcPass cfg.atrPeriod
        (store.take (cfg.atrPeriod + cfg.volumeAvgPeriod + 5)).reverse).reverse
          ++ store.drop (cfg.atrPeriod + cfg.volumeAvgPeriod + 5) := by
  have hcond : ¬(store.take (cfg.atrPeriod + cfg.volumeAvgPeriod + 5)).length
      < cfg.atrPeriod := by
    rw [List.length_take]
    omega
  simp only [analyzeStock]
  rw [if_neg hcond]

/-- A list whose `take` is a cons starts with that head. -/
lemma head?_of_take_cons {α : Type} (l : List α) (n : ℕ) (x : α) (t : List α)
    (h : l.take n = x :: t) : l.head? = some x := by
  cases l with
  | nil => simp at h
  | cons hd tl =>
    cases n with
    | zero => simp at h
    | succ m =>
      simp only [List.take_succ_cons] at h
      injection h with h1 h2
      simp [h1]

/-! ### Helper lemmas for the ATR recursion -/

/-- Dropping zero summands does not change a rational sum (the first-ATR
truthiness filter is harmless). -/
lemma filter_ne_zero_sum (l : List ℚ) :
    (l.filter (fun t => ¬t = 0)).sum = l.sum := by
  induction l with
  | nil => rfl
  | cons a rest ih =>
    rw [List.filter_cons]
    by_cases ha : a = 0
    · rw [if_neg (by simp [ha])]
      rw [List.sum_cons, ih, ha, zero_add]
    · rw [if_pos (by simp [ha])]
      rw [List.sum_cons, List.sum_cons, ih]

/-- True ranges of valid bars (`low ≤ high`) are non-negative. -/
lemma trueRangeOf_nonneg (pc : Option ℚ) (b : Bar) (hb : b.low ≤ b.high) :
    0 ≤ trueRangeOf pc b := by
  cases pc with
  | none => simpa [trueRangeOf] using hb
  | some c =>
    simp only [trueRangeOf]
    exact le_trans (sub_nonneg.mpr hb) (le_max_left _ _)

/-- Lockstep comparison of `_calculate_atr_for_stock`'s loop with the
spec's Wilder recursion, on fresh valid bars whose first `p` true ranges
are not all zero: the loop writes exactly the spec's true ranges and ATR
column.  The state invariants carry the matching prior ATR (positive once
past the warm-up point). -/
lemma calcGo_spec_go (p : ℕ) (hp : 2 ≤ p) :
    ∀ (bars : List Bar) (pc : Option ℚ) (i : ℕ) (trs : List ℚ)
      (pa_c pa_s : Option ℚ),
    (∀ b ∈ bars, b.atr14 = none) →
    (∀ b ∈ bars, b.low ≤ b.high) →
    (∀ t ∈ trs, 0 ≤ t) →
    trs.length = i →
    (p ≤ i + bars.length →
      ¬((trs ++ specTrueRangesFrom pc bars).take p).sum = 0) →
    (i < p → pa_c = none ∧ pa_s = none) →
    (p ≤ i → ∃ a, 0 < a ∧ pa_c = some a ∧ pa_s = some a) →
    (calcGo p bars pc i trs pa_c).map Bar.trueRange =
      (specTrueRangesFrom pc bars).map some ∧
    (calcGo p bars pc i trs pa_c).map Bar.atr14 =
      specAtrGo p (specTrueRangesFrom pc bars) i trs pa_s := by
  intro bars
  induction bars with
  | nil =>
    intro pc i trs pa_c pa_s _ _ _ _ _ _ _
    exact ⟨rfl, rfl⟩
  | cons b rest ih =>
    intro pc i trs pa_c pa_s hfresh hvalid htrs hlen hsum hlt hge
    have hbfresh : b.atr14 = none := hfresh b (by simp)
    have hrfresh : ∀ x ∈ rest, x.atr14 = none :=
      fun x hx => hfresh x (by simp [hx])
    have hrvalid : ∀ x ∈ rest, x.low ≤ x.high :=
      fun x hx => hvalid x (by simp [hx])
    have htr0 : 0 ≤ trueRangeOf pc b :=
      trueRangeOf_nonneg pc b (hvalid b (by simp))
    have htrs' : ∀ t ∈ trs ++ [trueRangeOf pc b], 0 ≤ t := by
      intro t ht
      rcases List.mem_append.mp ht with h | h
      · exact htrs t h
      · simp only [List.mem_singleton] at h
        exact h ▸ htr0
    have hlen' : (trs ++ [trueRangeOf pc b]).length = i + 1 := by
      simp [hlen]
    have hassoc : trs ++ specTrueRangesFrom pc (b :: rest) =
        (trs ++ [trueRangeOf pc b]) ++
          specTrueRangesFrom (some b.close) rest := by
      simp [specTrueRangesFrom, List.append_assoc]
    have hsum' : p ≤ (i + 1) + rest.length →
        ¬(((trs ++ [trueRangeOf pc b]) ++
          specTrueRangesFrom (some b.close) rest).take p).sum = 0 := by
      intro hple
      rw [← hassoc]
      apply hsum
      simp only [List.length_cons]
      omega
    simp only [calcGo, specTrueRangesFrom, specAtrGo, List.map_cons]
    rcases Nat.lt_trichotomy (i + 1) p with hcase | hcase | hcase
    · -- still before the warm-up point: no ATR is written
      have hi : i < p := by omega
      obtain ⟨hpc, hps⟩ := hlt hi
      rw [hbfresh, if_pos hcase, if_pos hcase]
      have hrec := ih (some b.close) (i + 1) (trs ++ [trueRangeOf pc b])
        none none hrfresh hrvalid htrs' hlen' hsum'
        (fun _ => ⟨rfl, rfl⟩) (fun h => absurd h (by omega))
      exact ⟨by rw [hrec.1], by rw [hrec.2]⟩
    · -- the warm-up point: first ATR = mean of the first p true ranges
      have hfs := filter_ne_zero_sum (trs ++ [trueRangeOf pc b])
      have htake : ((trs ++ [trueRangeOf pc b]) ++
          specTrueRangesFrom (some b.close) rest).take p =
            trs ++ [trueRangeOf pc b] := by
        rw [List.take_left' (by rw [hlen']; omega)]
      have hS : ¬(trs ++ [trueRangeOf pc b]).sum = 0 := by
        have := hsum (by simp only [List.length_cons]; omega)
        rw [hassoc, htake] at this
        exact this
      have hSpos : 0 < (trs ++ [trueRangeOf pc b]).sum :=
        lt_of_le_of_ne (List.sum_nonneg htrs') (Ne.symm hS)
      have hppos : (0 : ℚ) < p := by
        have : (2 : ℚ) ≤ p := by exact_mod_cast hp
        linarith
      have hmpos : 0 < (trs ++ [trueRangeOf pc b]).sum / p :=
        div_pos hSpos hppos
      rw [if_neg (by omega), if_pos hcase, if_neg (by omega), if_pos hcase,
        hfs]
      have hrec := ih (some b.close) (i + 1) (trs ++ [trueRangeOf pc b])
        (some ((trs ++ [trueRangeOf pc b]).sum / p))
        (some ((trs ++ [trueRangeOf pc b]).sum / p))
        hrfresh hrvalid htrs' hlen' hsum'
        (fun h => absurd h (by omega))
        (fun _ => ⟨_, hmpos, rfl, rfl⟩)
      exact ⟨by rw [hrec.1], by rw [hrec.2]⟩
    · -- past the warm-up point: the Wilder update applies
      have hi : p ≤ i := by omega
      obtain ⟨a, hapos, hpc, hps⟩ := hge hi
      have hp1 : (1 : ℚ) ≤ (p : ℚ) - 1 := by
        have : (2 : ℚ) ≤ p := by exact_mod_cast hp
        linarith
      have hvpos : 0 < (a * ((p : ℚ) - 1) + trueRangeOf pc b) / p := by
        have hppos : (0 : ℚ) < p := by
          have : (2 : ℚ) ≤ p := by exact_mod_cast hp
          linarith
        apply div_pos _ hppos
        have h1 : 0 < a * ((p : ℚ) - 1) :=
          mul_pos hapos (by linarith)
        linarith
      rw [if_neg (by omega : ¬i + 1 < p), if_neg (by omega : ¬i + 1 = p),
        if_neg (by omega : ¬i + 1 < p), if_neg (by omega : ¬i + 1 = p),
        hpc, hps]
      simp only [Option.getD_some]
      rw [if_neg (ne_of_gt hapos)]
      have hrec := ih (some b.close) (i + 1) (trs ++ [trueRangeOf pc b])
        (some ((a * ((p : ℚ) - 1) + trueRangeOf pc b) / p))
        (some ((a * ((p : ℚ) - 1) + trueRangeOf pc b) / p))
        hrfresh hrvalid htrs' hlen' hsum'
        (fun h => absurd h (by omega))
        (fun _ => ⟨_, hvpos, rfl, rfl⟩)
      exact ⟨by rw [hrec.1], by rw [hrec.2]⟩

/-! ### C1 — the ATR column, amended -/

/-- C1 (counterexample): on fifteen fresh, perfectly flat bars the code
leaves the fifteenth bar's ATR null, while the claimed unconditional
Wilder recursion demands `(0 * 13 + 0) / 14 = 0` there: the update is
skipped because the prior ATR (the zero mean of the warm-up true ranges)
is falsy in `if prev_atr:`. -/
theorem atr_wilder_recursion_counterexample :
    ((calcPass 14 flatAsc).map Bar.atr14).getD 14 (some 1) = none ∧
    (specAtr 14 (specTrueRanges flatAsc)).getD 14 none = some 0 := by
  constructor <;> with_unfolding_all decide

/-- C1 (amended): on an ascending, fresh (no stored ATR), valid
(`low ≤ high`) bar sequence whose first `atr_period` true ranges are not
all zero — so that the first ATR is non-zero — the calculator writes
exactly the claimed column: `true_range` is `high − low` for the first bar
and the three-way maximum afterwards, ATR is null before the warm-up
point, the simple mean of the first `atr_period` true ranges at index
`atr_period − 1`, and `(prior_atr * (atr_period − 1) + tr) / atr_period`
for every later bar.  (When the warm-up true ranges are all zero, the
zero first ATR is treated as missing and every later ATR stays null.) -/
theorem atr_wilder_recursion_amended (p : ℕ) (bars : List Bar)
    (hp : 2 ≤ p)
    (hfresh : ∀ b ∈ bars, b.atr14 = none)
    (hvalid : ∀ b ∈ bars, b.low ≤ b.high)
    (hsum : p ≤ bars.length → ¬((specTrueRanges bars).take p).sum = 0) :
    (calcPass p bars).map Bar.trueRange = (specTrueRanges bars).map some ∧
    (calcPass p bars).map Bar.atr14 = specAtr p (specTrueRanges bars) :=
  calcGo_spec_go p hp bars none 0 [] none none hfresh hvalid
    (by simp) rfl (by simpa using hsum) (fun _ => ⟨rfl, rfl⟩)
    (fun h => absurd h (by omega))

/-- C1 (witness): the amended theorem applied to the fourteen-bar
constant-range sample. -/
theorem atr_wilder_recursion_amended_witness :
    (calcPass 14 demoAsc).map Bar.trueRange =
      (specTrueRanges demoAsc).map some ∧
    (calcPass 14 demoAsc).map Bar.atr14 =
      specAtr 14 (specTrueRanges demoAsc) :=
  atr_wilder_recursion_amended 14 demoAsc (by norm_num)
    (by with_unfolding_all decide) (by with_unfolding_all decide)
    (by with_unfolding_all decide)

/-! ### Helper lemmas for the backtest forward window -/

/-- The value component of the running-maximum loop is the maximum high. -/
lemma maxHighFold_run : ∀ (l : List Bar) (m : ℚ) (md : ℤ), ∃ d : ℤ,
    l.foldl maxHighStep (some (m, md)) =
      some (l.foldl (fun q x => max q x.high) m, d) := by
  intro l
  induction l with
  | nil => intro m md; exact ⟨md, rfl⟩
  | cons b rest ih =>
    intro m md
    simp only [List.foldl_cons, maxHighStep]
    by_cases hm : m < b.high
    · obtain ⟨d, hd⟩ := ih b.high b.date
      refine ⟨d, ?_⟩
      rw [if_pos hm, hd, max_eq_right (le_of_lt hm)]
    · obtain ⟨d, hd⟩ := ih m md
      refine ⟨d, ?_⟩
      rw [if_neg hm, hd, max_eq_left (not_lt.mp hm)]

/-- The value component of the running-minimum loop is the minimum low. -/
lemma minLowFold_run : ∀ (l : List Bar) (m : ℚ) (md : ℤ), ∃ d : ℤ,
    l.foldl minLowStep (some (m, md)) =
      some (l.foldl (fun q x => min q x.low) m, d) := by
  intro l
  induction l with
  | nil => intro m md; exact ⟨md, rfl⟩
  | cons b rest ih =>
    intro m md
    simp only [List.foldl_cons, minLowStep]
    by_cases hm : b.low < m
    · obtain ⟨d, hd⟩ := ih b.low b.date
      refine ⟨d, ?_⟩
      rw [if_pos hm, hd, min_eq_right (le_of_lt hm)]
    · obtain ⟨d, hd⟩ := ih m md
      refine ⟨d, ?_⟩
      rw [if_neg hm, hd, min_eq_left (not_lt.mp hm)]

/-- On a nonempty list the running-maximum loop returns the highest high. -/
lemma maxHighFold_eq (l : List Bar) (hne : l ≠ []) :
    ∃ d : ℤ, maxHighFold l = some (highestHigh l, d) := by
  cases l with
  | nil => exact absurd rfl hne
  | cons b rest =>
    simp only [maxHighFold, List.foldl_cons, maxHighStep, highestHigh]
    exact maxHighFold_run rest b.high b.date

/-- On a nonempty list the running-minimum loop returns the lowest low. -/
lemma minLowFold_eq (l : List Bar) (hne : l ≠ []) :
    ∃ d : ℤ, minLowFold l = some (lowestLow l, d) := by
  cases l with
  | nil => exact absurd rfl hne
  | cons b rest =>
    simp only [minLowFold, List.foldl_cons, minLowStep, lowestLow]
    exact minLowFold_run rest b.low b.date

/-- A fold of `max` over positive highs stays positive. -/
lemma foldl_max_high_pos : ∀ (l : List Bar) (m : ℚ), 0 < m →
    (∀ x ∈ l, 0 < x.high) → 0 < l.foldl (fun q x => max q x.high) m := by
  intro l
  induction l with
  | nil => intro m hm _; exact hm
  | cons b rest ih =>
    intro m hm hpos
    simp only [List.foldl_cons]
    exact ih _ (lt_max_of_lt_left hm) (fun x hx => hpos x (by simp [hx]))

/-- A fold of `min` over positive lows stays positive. -/
lemma foldl_min_low_pos : ∀ (l : List Bar) (m : ℚ), 0 < m →
    (∀ x ∈ l, 0 < x.low) → 0 < l.foldl (fun q x => min q x.low) m := by
  intro l
  induction l with
  | nil => intro m hm _; exact hm
  | cons b rest ih =>
    intro m hm hpos
    simp only [List.foldl_cons]
    exact ih _ (lt_min hm (hpos b (by simp)))
      (fun x hx => hpos x (by simp [hx]))

/-- The highest high of a nonempty all-positive list is positive. -/
lemma highestHigh_pos (l : List Bar) (hne : l ≠ [])
    (hpos : ∀ b ∈ l, 0 < b.high) : 0 < highestHigh l := by
  cases l with
  | nil => exact absurd rfl hne
  | cons b rest =>
    exact foldl_max_high_pos rest b.high (hpos b (by simp))
      (fun x hx => hpos x (by simp [hx]))

/-- The lowest low of a nonempty all-positive list is positive. -/
lemma lowestLow_pos (l : List Bar) (hne : l ≠ [])
    (hpos : ∀ b ∈ l, 0 < b.low) : 0 < lowestLow l := by
  cases l with
  | nil => exact absurd rfl hne
  | cons b rest =>
    exact foldl_min_low_pos rest b.low (hpos b (by simp))
      (fun x hx => hpos x (by simp [hx]))

/-! ### C6 — forward-window alert evaluation -/

/-- C6: an alert whose five-day forward window has not elapsed relative to
"now" is PENDING with no gain or loss; once the window has elapsed (given a
trigger price, at least one forward bar, and positive prices),
`max_gain_pct` comes from the highest high and `max_loss_pct` from the
lowest low of the forward-window bars relative to the trigger close, the
status is BREAKOUT exactly when the gain reaches the 2% threshold, and
otherwise NO_BREAKOUT. -/
theorem alert_outcome_forward_window (now d : ℤ) (store : List Bar) :
    ((now - d < lookforwardDays) →
      (evaluateAlertOutcome now d store).status = Status.PENDING ∧
      (evaluateAlertOutcome now d store).maxGainPct = none ∧
      (evaluateAlertOutcome now d store).maxLossPct = none) ∧
    (lookforwardDays ≤ now - d →
      ∀ pb, (store.filter (fun b => b.date ≤ d)).getLast? = some pb →
      ∀ fut, fut = store.filter
        (fun b => d < b.date ∧ b.date ≤ d + lookforwardDays) →
      fut ≠ [] →
      (∀ b ∈ fut, 0 < b.high ∧ 0 < b.low) →
      (evaluateAlertOutcome now d store).maxGainPct =
        some (round2 ((highestHigh fut - pb.close) / pb.close * 100)) ∧
      (evaluateAlertOutcome now d store).maxLossPct =
        some (round2 ((lowestLow fut - pb.close) / pb.close * 100)) ∧
      ((evaluateAlertOutcome now d store).status = Status.BREAKOUT ↔
        breakoutThresholdPct ≤
          round2 ((highestHigh fut - pb.close) / pb.close * 100)) ∧
      ((evaluateAlertOutcome now d store).status = Status.BREAKOUT ∨
        (evaluateAlertOutcome now d store).status = Status.NO_BREAKOUT)) := by
  constructor
  · intro hpend
    have h5 : now < d + lookforwardDays := by
      simp only [lookforwardDays] at hpend ⊢
      omega
    cases hlast : (store.filter (fun b => b.date ≤ d)).getLast? with
    | none => simp [evaluateAlertOutcome, hlast]
    | some pb => simp [evaluateAlertOutcome, hlast, h5]
  · intro hel pb hpb fut hfut hne hpos
    have h5 : ¬now < d + lookforwardDays := by
      simp only [lookforwardDays] at hel ⊢
      omega
    have hfe : (store.filter
        (fun b => d < b.date ∧ b.date ≤ d + lookforwardDays)).isEmpty
          = false := by
      rw [List.isEmpty_eq_false]
      rw [← hfut]
      exact hne
    obtain ⟨dH, hH⟩ := maxHighFold_eq fut hne
    obtain ⟨dL, hL⟩ := minLowFold_eq fut hne
    have hHpos : 0 < highestHigh fut :=
      highestHigh_pos fut hne (fun b hb => (hpos b hb).1)
    have hLpos : 0 < lowestLow fut :=
      lowestLow_pos fut hne (fun b hb => (hpos b hb).2)
    rw [← hfut] at hfe
    simp only [evaluateAlertOutcome, hpb, if_neg h5, ← hfut, hfe,
      Bool.false_eq_true, if_false, ite_false, hH, hL,
      ne_of_gt hHpos, ne_of_gt hLpos, if_neg]
    refine ⟨by trivial, by trivial, ?_, ?_⟩
    · split_ifs with hb
      · rw [decide_eq_true_eq] at hb
        exact iff_of_true rfl hb.2
      · refine iff_of_false (by simp) (fun hthr => hb ?_)
        rw [decide_eq_true_eq]
        refine ⟨?_, hthr⟩
        intro h0
        rw [h0] at hthr
        simp only [breakoutThresholdPct] at hthr
        norm_num at hthr
    · split_ifs <;> simp

/-- C6 (witness): the spec's example — trigger close 100, forward highs
101, 103, 102.5, 99, 98 — gives a 3% max gain and status BREAKOUT once the
window has elapsed, and PENDING a day earlier. -/
theorem alert_outcome_forward_window_witness :
    (evaluateAlertOutcome 5 0 btDemo).status = Status.BREAKOUT ∧
    (evaluateAlertOutcome 5 0 btDemo).maxGainPct = some 3 ∧
    (evaluateAlertOutcome 4 0 btDemo).status = Status.PENDING := by
  have hmain := (alert_outcome_forward_window 5 0 btDemo).2
    (by with_unfolding_all decide) btTrigger (by with_unfolding_all decide)
    _ rfl (by with_unfolding_all decide) (by with_unfolding_all decide)
  refine ⟨hmain.2.2.1.mpr (by with_unfolding_all decide), ?_, ?_⟩
  · rw [hmain.1]
    with_unfolding_all decide
  · exact ((alert_outcome_forward_window 4 0 btDemo).1
      (by with_unfolding_all decide)).1

/-- C9: the `consecutive_tight_days` stored in any produced analysis row
never exceeds `volume_avg_period + 5` (25 with default settings), because
the streak is counted over the refetched window of the most recent
`volume_avg_period + 5` bars only. -/
theorem analysis_tight_days_bounded (cfg : Config) (sid : ℕ) (adate : ℤ)
    (store : List Bar) (astore : List AnalysisRecord) (rec : AnalysisRecord)
    (h : (analyzeStock cfg sid adate store astore).1 = some rec) :
    rec.consecutiveTightDays ≤ cfg.volumeAvgPeriod + 5 := by
  have hN : ¬(cfg.atrPeriod + cfg.volumeAvgPeriod + 5 < cfg.atrPeriod) := by
    omega
  by_cases hguard : store.length < cfg.atrPeriod
  · simp [analyzeStock, hguard] at h
  · cases hw2 : (((calcPass cfg.atrPeriod
        (store.take (cfg.atrPeriod + cfg.volumeAvgPeriod + 5)).reverse).reverse
          ++ store.drop (cfg.atrPeriod + cfg.volumeAvgPeriod + 5)).take
            (cfg.volumeAvgPeriod + 5)) with
    | nil => simp [analyzeStock, analyzeFinish, hguard, hN, hw2] at h
    | cons latest tail =>
      cases hatr : latest.atr14 with
      | none => simp [analyzeStock, analyzeFinish, hguard, hN, hw2, hatr] at h
      | some a =>
        by_cases ha0 : a = 0
        · simp [analyzeStock, analyzeFinish, hguard, hN, hw2, hatr, ha0] at h
        · simp only [analyzeStock, analyzeFinish, hguard, hN, hw2, hatr,
            ha0, if_false, if_neg, Option.some.injEq, reduceCtorEq,
            ite_false, List.length_take, lt_min_iff, min_lt_iff, or_false,
            false_or] at h
          rw [← h, upsert_fst_tight]
          have hlen : (latest :: tail).length ≤ cfg.volumeAvgPeriod + 5 := by
            rw [← hw2, List.length_take]
            exact min_le_left _ _
          exact le_trans (countTight_le_length _) hlen

/-- C9 (witness): on the fourteen-bar sample store the produced analysis
row's streak is bounded by 25. -/
theorem analysis_tight_days_bounded_witness :
    demoAnalysis.consecutiveTightDays ≤ defaultCfg.volumeAvgPeriod + 5 ∧
    (analyzeStock defaultCfg 1 20 demoStore []).1 = some demoAnalysis :=
  ⟨analysis_tight_days_bounded defaultCfg 1 20 demoStore [] demoAnalysis
      (by with_unfolding_all decide),
    by with_unfolding_all decide⟩

/-! ### C10 — null-or-zero ATR aborts the analysis -/

/-- C10: `analyze_stock` returns no analysis row whenever the most recent
bar's stored ATR ends up null or exactly zero after the calculation pass
(the guard `if not latest_price.atr_14` treats zero like missing data),
even when at least `atr_period` bars of history exist. -/
theorem zero_atr_yields_no_analysis (cfg : Config) (sid : ℕ) (adate : ℤ)
    (store : List Bar) (astore : List AnalysisRecord)
    (hlen : cfg.atrPeriod ≤
      (store.take (cfg.atrPeriod + cfg.volumeAvgPeriod + 5)).length)
    (hz : (((analyzeStock cfg sid adate store astore).2.1.head?).bind
      Bar.atr14).getD 0 = 0) :
    (analyzeStock cfg sid adate store astore).1 = none := by
  have hN : ¬(cfg.atrPeriod + cfg.volumeAvgPeriod + 5 < cfg.atrPeriod) := by
    omega
  have hguard : ¬store.length < cfg.atrPeriod := by
    rw [List.length_take] at hlen
    omega
  rw [analyzeStock_snd_store cfg sid adate store astore hguard] at hz
  cases hw2 : (((calcPass cfg.atrPeriod
      (store.take (cfg.atrPeriod + cfg.volumeAvgPeriod + 5)).reverse).reverse
        ++ store.drop (cfg.atrPeriod + cfg.volumeAvgPeriod + 5)).take
          (cfg.volumeAvgPeriod + 5)) with
  | nil => simp [analyzeStock, analyzeFinish, hguard, hN, hw2]
  | cons latest tail =>
    have hhead := head?_of_take_cons _ _ _ _ hw2
    rw [hhead] at hz
    simp only [Option.some_bind] at hz
    cases hatr : latest.atr14 with
    | none => simp [analyzeStock, analyzeFinish, hguard, hN, hw2, hatr]
    | some a =>
      rw [hatr] at hz
      simp only [Option.getD_some] at hz
      simp [analyzeStock, analyzeFinish, hguard, hN, hw2, hatr, hz]

/-! ### Helper lemmas for pattern grouping -/

/-- While the scan stays on one symbol, the grouping fold only applies the
peak update to the last opened pattern. -/
lemma groupStep_run (s : ℕ) : ∀ (l : List AnalysisRecord),
    (∀ a ∈ l, a.stockId = s) →
    ∀ (p : PatternRec) (acc : List PatternRec),
    l.foldl groupStep (some s, p :: acc) =
      (some s, (l.foldl peakUpdate p) :: acc) := by
  intro l
  induction l with
  | nil => intro _ p acc; rfl
  | cons a rest ih =>
    intro hs p acc
    have ha : a.stockId = s := hs a (by simp)
    have hrest : ∀ x ∈ rest, x.stockId = s := fun x hx => hs x (by simp [hx])
    have hstep : groupStep (some s, p :: acc) a =
        (some s, peakUpdate p a :: acc) := by
      simp only [groupStep, peakUpdate, ha]
      simp only [ne_eq, not_true_eq_false, if_false, ite_false]
      split_ifs <;> rfl
    simp only [List.foldl_cons, hstep]
    exact ih hrest _ acc

/-- The peak fold records the maximum streak seen. -/
lemma foldl_peakUpdate_tight : ∀ (l : List AnalysisRecord) (p : PatternRec),
    (l.foldl peakUpdate p).tightDays =
      l.foldl (fun m a => max m a.consecutiveTightDays) p.tightDays := by
  intro l
  induction l with
  | nil => intro p; rfl
  | cons a rest ih =>
    intro p
    have hstep : (peakUpdate p a).tightDays =
        max p.tightDays a.consecutiveTightDays := by
      simp only [peakUpdate]
      split_ifs with h
      · show a.consecutiveTightDays = max p.tightDays a.consecutiveTightDays
        omega
      · show p.tightDays = max p.tightDays a.consecutiveTightDays
        omega
    simp only [List.foldl_cons, ih, hstep]

/-- The peak fold never changes a pattern's symbol or start date. -/
lemma foldl_peakUpdate_keys : ∀ (l : List AnalysisRecord) (p : PatternRec),
    (l.foldl peakUpdate p).stockId = p.stockId ∧
      (l.foldl peakUpdate p).startDate = p.startDate := by
  intro l
  induction l with
  | nil => intro p; exact ⟨rfl, rfl⟩
  | cons a rest ih =>
    intro p
    have h1 : (peakUpdate p a).stockId = p.stockId := by
      simp only [peakUpdate]
      split_ifs <;> rfl
    have h2 : (peakUpdate p a).startDate = p.startDate := by
      simp only [peakUpdate]
      split_ifs <;> rfl
    simp only [List.foldl_cons]
    exact ⟨(ih _).1.trans h1, (ih _).2.trans h2⟩

/-! ### C8 — pattern grouping, amended -/

/-- C8 (amended): for the consolidating analyses of one symbol (ordered by
date), the grouping loop produces exactly one pattern — a new pattern opens
only when the symbol changes, never on a streak reset — namely the peak
fold of the first record's pattern; its recorded streak equals the maximum
streak observed for the symbol; appending an analysis whose streak does not
strictly exceed the recorded value leaves the result unchanged, while one
that strictly exceeds it rewrites the recorded streak, probability and
confidence to that analysis's values (keeping the original start date). -/
theorem pattern_grouping_per_symbol (s : ℕ) (a0 : AnalysisRecord)
    (l : List AnalysisRecord) (hs : ∀ a ∈ a0 :: l, a.stockId = s) :
    groupPatterns (a0 :: l) = [l.foldl peakUpdate (mkPattern a0)] ∧
    (l.foldl peakUpdate (mkPattern a0)).tightDays =
      ((a0 :: l).map (fun a => a.consecutiveTightDays)).foldl max 0 ∧
    (∀ a', a'.stockId = s →
      a'.consecutiveTightDays ≤ (l.foldl peakUpdate (mkPattern a0)).tightDays →
      groupPatterns ((a0 :: l) ++ [a']) = groupPatterns (a0 :: l)) ∧
    (∀ a', a'.stockId = s →
      (l.foldl peakUpdate (mkPattern a0)).tightDays < a'.consecutiveTightDays →
      groupPatterns ((a0 :: l) ++ [a']) =
        [{ stockId := s, startDate := a0.date,
           tightDays := a'.consecutiveTightDays,
           probability := a'.breakoutProbability,
           confidence := a'.confidenceScore }]) := by
  have ha0 : a0.stockId = s := hs a0 (by simp)
  have hl : ∀ a ∈ l, a.stockId = s := fun a hx => hs a (by simp [hx])
  have hfirst : groupStep (none, ([] : List PatternRec)) a0 =
      (some s, [mkPattern a0]) := by
    simp [groupStep, ha0]
  have hrun : (a0 :: l).foldl groupStep (none, []) =
      (some s, [l.foldl peakUpdate (mkPattern a0)]) := by
    simp only [List.foldl_cons, hfirst]
    exact groupStep_run s l hl _ []
  have hmain : groupPatterns (a0 :: l) = [l.foldl peakUpdate (mkPattern a0)] := by
    simp [groupPatterns, hrun]
  refine ⟨hmain, ?_, ?_, ?_⟩
  · rw [foldl_peakUpdate_tight]
    have : (mkPattern a0).tightDays = a0.consecutiveTightDays := rfl
    rw [this]
    simp only [List.map_cons, List.foldl_cons, Nat.zero_max, List.foldl_map]
  · intro a' ha' hle
    have hstep : groupStep (some s, [l.foldl peakUpdate (mkPattern a0)]) a' =
        (some s, [l.foldl peakUpdate (mkPattern a0)]) := by
      simp only [groupStep, ha']
      simp [peakUpdate, Nat.not_lt.mpr hle]
    have hall : List.foldl groupStep (none, []) (a0 :: (l ++ [a'])) =
        (some s, [l.foldl peakUpdate (mkPattern a0)]) := by
      rw [List.foldl_cons, hfirst, List.foldl_append,
        groupStep_run s l hl (mkPattern a0) []]
      simpa using hstep
    unfold groupPatterns
    rw [List.cons_append, hall, List.foldl_cons, hfirst,
      groupStep_run s l hl (mkPattern a0) []]
  · intro a' ha' hlt
    have hP1 : (l.foldl peakUpdate (mkPattern a0)).stockId = s := by
      rw [(foldl_peakUpdate_keys l (mkPattern a0)).1]
      exact ha0
    have hP2 : (l.foldl peakUpdate (mkPattern a0)).startDate = a0.date := by
      rw [(foldl_peakUpdate_keys l (mkPattern a0)).2]
      rfl
    have hstep : groupStep (some s, [l.foldl peakUpdate (mkPattern a0)]) a' =
        (some s,
          [{ stockId := s, startDate := a0.date,
             tightDays := a'.consecutiveTightDays,
             probability := a'.breakoutProbability,
             confidence := a'.confidenceScore }]) := by
      simp only [groupStep, ha', ne_eq, not_true_eq_false, if_false,
        ite_false]
      simp [hlt, hP1, hP2]
    have hall : List.foldl groupStep (none, []) (a0 :: (l ++ [a'])) =
        (some s,
          [{ stockId := s, startDate := a0.date,
             tightDays := a'.consecutiveTightDays,
             probability := a'.breakoutProbability,
             confidence := a'.confidenceScore }]) := by
      rw [List.foldl_cons, hfirst, List.foldl_append,
        groupStep_run s l hl (mkPattern a0) []]
      simpa using hstep
    unfold groupPatterns
    rw [List.cons_append, hall]
    rfl

/-- C8 (witness): the per-symbol grouping theorem instantiated on the
two-record sample. -/
theorem pattern_grouping_per_symbol_witness :
    groupPatterns [consolAnalysis 1 0 3, consolAnalysis 1 1 4] =
      [List.foldl peakUpdate (mkPattern (consolAnalysis 1 0 3))
        [consolAnalysis 1 1 4]] :=
  (pattern_grouping_per_symbol 1 (consolAnalysis 1 0 3)
    [consolAnalysis 1 1 4] (by decide)).1

/-- C10 (witness): fifteen perfectly flat bars give a zero first ATR and
null later ATRs, so the pipeline returns no analysis row even though more
than `atr_period` bars exist. -/
theorem zero_atr_yields_no_analysis_witness :
    (analyzeStock defaultCfg 1 20 flatStore []).1 = none :=
  zero_atr_yields_no_analysis defaultCfg 1 20 flatStore []
    (by with_unfolding_all decide) (by with_unfolding_all decide)

/-! ### Helper lemmas for re-analysis idempotence -/

/-- The true-range formula ignores the derived columns of a bar. -/
lemma trueRangeOf_update (pc : Option ℚ) (b : Bar) (t a d : Option ℚ) :
    trueRangeOf pc { b with trueRange := t, atr14 := a, dailyRange := d } =
      trueRangeOf pc b := by
  cases pc <;> rfl

/-- The annotation loop preserves the number of bars. -/
lemma calcGo_length (p : ℕ) : ∀ (l : List Bar) (pc : Option ℚ) (i : ℕ)
    (trs : List ℚ) (pa : Option ℚ),
    (calcGo p l pc i trs pa).length = l.length := by
  intro l
  induction l with
  | nil => intro pc i trs pa; rfl
  | cons b rest ih =>
    intro pc i trs pa
    simp only [calcGo, List.length_cons, ih]

/-- Re-running the annotation loop over its own output from the same state
changes nothing: recomputed true ranges and ATRs coincide, and positions
the first pass skipped (zero-or-missing prior ATR) keep the values the
first pass already kept. -/
lemma calcGo_idem (p : ℕ) : ∀ (l : List Bar) (pc : Option ℚ) (i : ℕ)
    (trs : List ℚ) (pa : Option ℚ),
    calcGo p (calcGo p l pc i trs pa) pc i trs pa =
      calcGo p l pc i trs pa := by
  intro l
  induction l with
  | nil => intro pc i trs pa; rfl
  | cons b rest ih =>
    intro pc i trs pa
    simp only [calcGo, trueRangeOf_update]
    split_ifs <;> rw [ih]

/-- Annotating an already-annotated window is a no-op. -/
lemma calcPass_idem (p : ℕ) (l : List Bar) :
    calcPass p (calcPass p l) = calcPass p l :=
  calcGo_idem p l none 0 [] none

/-- Splicing an annotated window of the right length back over the store:
the refetch returns the annotated window and the remainder is untouched. -/
lemma splice_take_drop {α : Type} (store ann : List α) (N : ℕ)
    (h : ann.length = (store.take N).length) :
    (ann ++ store.drop N).take N = ann ∧
      (ann ++ store.drop N).drop N = store.drop N := by
  have hlen : ann.length = min N store.length := by
    rw [h, List.length_take]
  have hle : ann.length ≤ N := by omega
  constructor
  · rw [List.take_append_eq_append_take, List.take_of_length_le hle]
    rcases Nat.le_total N store.length with hc | hc
    · have h0 : N - ann.length = 0 := by omega
      rw [h0]
      simp
    · have hdrop : store.drop N = [] := List.drop_eq_nil_of_le hc
      rw [hdrop]
      simp
  · rw [List.drop_append_eq_append_drop, List.drop_eq_nil_of_le hle]
    rcases Nat.le_total N store.length with hc | hc
    · have h0 : N - ann.length = 0 := by omega
      rw [h0]
      simp
    · have hdrop : store.drop N = [] := List.drop_eq_nil_of_le hc
      rw [hdrop]
      simp

/-- Replacing every key-matching row by a fixed key-matching row moves the
first match to that row. -/
lemma find?_replace (key : AnalysisRecord → Bool) (m : AnalysisRecord)
    (hm : key m = true) :
    ∀ (l : List AnalysisRecord) (old : AnalysisRecord),
    l.find? key = some old →
      (l.map (fun x => if key x then m else x)).find? key = some m := by
  intro l
  induction l with
  | nil => intro old h; simp at h
  | cons hd tl ih =>
    intro old h
    by_cases hk : key hd = true
    · simp only [List.map_cons, if_pos hk]
      exact List.find?_cons_of_pos _ hm
    · rw [List.find?_cons_of_neg _ (by simp [hk])] at h
      simp only [List.map_cons, if_neg (by simp [hk] : ¬key hd = true)]
      rw [List.find?_cons_of_neg _ (by simp [hk])]
      exact ih old h

/-- The replacement map is idempotent. -/
lemma replace_idem (key : AnalysisRecord → Bool) (m : AnalysisRecord)
    (l : List AnalysisRecord) :
    (l.map (fun x => if key x then m else x)).map
        (fun x => if key x then m else x) =
      l.map (fun x => if key x then m else x) := by
  rw [List.map_map]
  have hf : ((fun x => if key x then m else x) ∘
      (fun x => if key x then m else x)) =
        (fun x => if key x then m else x) := by
    funext x
    by_cases hk : key x = true
    · simp [Function.comp, hk]
    · simp [Function.comp, hk]
  rw [hf]

/-- With no key match present, the replacement map changes nothing. -/
lemma map_replace_of_none (key : AnalysisRecord → Bool) (m : AnalysisRecord) :
    ∀ (l : List AnalysisRecord), l.find? key = none →
      l.map (fun x => if key x then m else x) = l := by
  intro l
  induction l with
  | nil => intro _; rfl
  | cons hd tl ih =>
    intro h
    rw [List.find?_eq_none] at h
    simp only [List.map_cons, if_neg (h hd (by simp))]
    congr 1
    apply ih
    rw [List.find?_eq_none]
    exact fun x hx => h x (by simp [hx])

/-- A second `update_or_create` with the same candidate row is a no-op:
it returns the same stored row and leaves the table unchanged. -/
lemma upsertAnalysis_idem (astore : List AnalysisRecord)
    (rec : AnalysisRecord) :
    upsertAnalysis (upsertAnalysis astore rec).2 rec =
      upsertAnalysis astore rec := by
  cases hfind : astore.find? (analysisKey rec.stockId rec.date) with
  | none =>
    have hinner : upsertAnalysis astore rec = (rec, rec :: astore) := by
      simp only [upsertAnalysis, hfind]
    rw [hinner]
    have hfind2 : (rec :: astore).find? (analysisKey rec.stockId rec.date) =
        some rec := List.find?_cons_of_pos _ (by simp [analysisKey])
    simp only [upsertAnalysis, hfind2]
    refine Prod.ext rfl ?_
    simp only [List.map_cons, if_pos (by simp [analysisKey] :
      analysisKey rec.stockId rec.date rec = true)]
    rw [map_replace_of_none _ _ astore hfind]
  | some old =>
    have hinner : upsertAnalysis astore rec =
        ({ rec with confidenceScore := old.confidenceScore },
          astore.map (fun x =>
            if analysisKey rec.stockId rec.date x then
              { rec with confidenceScore := old.confidenceScore } else x)) := by
      simp only [upsertAnalysis, hfind]
    rw [hinner]
    have hm : analysisKey rec.stockId rec.date
        { rec with confidenceScore := old.confidenceScore } = true := by
      simp [analysisKey]
    have hfind2 := find?_replace _ _ hm astore old hfind
    simp only [upsertAnalysis, hfind2]
    exact Prod.ext rfl (replace_idem _ _ astore)

/-- The upsert never leaves more than one row with the key. -/
lemma upsert_countP_le (sid : ℕ) (adate : ℤ) (astore : List AnalysisRecord)
    (rec : AnalysisRecord) (hs : rec.stockId = sid) (hd : rec.date = adate)
    (h : astore.countP (analysisKey sid adate) ≤ 1) :
    (upsertAnalysis astore rec).2.countP (analysisKey sid adate) ≤ 1 := by
  subst hs
  subst hd
  cases hfind : astore.find? (analysisKey rec.stockId rec.date) with
  | none =>
    simp only [upsertAnalysis, hfind]
    have h0 : astore.countP (analysisKey rec.stockId rec.date) = 0 := by
      rw [List.countP_eq_zero]
      exact fun a ha hk => (List.find?_eq_none.mp hfind a ha) hk
    rw [List.countP_cons_of_pos _ _ (by simp [analysisKey]), h0]
  | some old =>
    simp only [upsertAnalysis, hfind]
    rw [List.countP_map]
    have hcomp : (analysisKey rec.stockId rec.date ∘ fun x =>
        if analysisKey rec.stockId rec.date x then
          { rec with confidenceScore := old.confidenceScore } else x) =
          analysisKey rec.stockId rec.date := by
      funext x
      by_cases hk : analysisKey rec.stockId rec.date x = true
      · simp only [analysisKey, decide_eq_true_eq] at hk
        simp [Function.comp, analysisKey, hk.1, hk.2]
      · simp [Function.comp, hk]
    rw [hcomp]
    exact h

/-- Re-running the post-refetch stage over the analysis table it produced
yields the same row and table. -/
lemma analyzeFinish_idem (cfg : Config) (sid : ℕ) (adate : ℤ)
    (w2 : List Bar) (astore : List AnalysisRecord) :
    analyzeFinish cfg sid adate w2 (analyzeFinish cfg sid adate w2 astore).2 =
      analyzeFinish cfg sid adate w2 astore := by
  cases w2 with
  | nil => rfl
  | cons latest tail =>
    cases hatr : latest.atr14 with
    | none => simp [analyzeFinish, hatr]
    | some a =>
      by_cases ha0 : a = 0
      · simp [analyzeFinish, hatr, ha0]
      · simp only [analyzeFinish, hatr, if_neg ha0]
        rw [upsertAnalysis_idem]

/-- The post-refetch stage preserves key uniqueness of the table. -/
lemma analyzeFinish_countP (cfg : Config) (sid : ℕ) (adate : ℤ)
    (w2 : List Bar) (astore : List AnalysisRecord)
    (h : astore.countP (analysisKey sid adate) ≤ 1) :
    (analyzeFinish cfg sid adate w2 astore).2.countP
      (analysisKey sid adate) ≤ 1 := by
  cases w2 with
  | nil => exact h
  | cons latest tail =>
    cases hatr : latest.atr14 with
    | none => simpa [analyzeFinish, hatr] using h
    | some a =>
      by_cases ha0 : a = 0
      · simpa [analyzeFinish, hatr, ha0] using h
      · simp only [analyzeFinish, hatr, if_neg ha0]
        exact upsert_countP_le sid adate astore _ rfl rfl h

/-! ### C7 — re-analysis is an idempotent upsert -/

/-- C7: running the analysis a second time for the same (symbol, date) on
the stores the first run left behind returns the identical triple — the
same analysis row (field-for-field), the same annotated price table, and
the same analysis table (the upsert overwrites, never duplicates: the
table keeps at most one row for the key).  In particular the derived
true-range/ATR annotations and the analysis row are deterministic
functions of the stored bars. -/
theorem analyze_reanalysis_idempotent (cfg : Config) (sid : ℕ) (adate : ℤ)
    (store : List Bar) (astore : List AnalysisRecord)
    (hdup : astore.countP (analysisKey sid adate) ≤ 1) :
    analyzeStock cfg sid adate (analyzeStock cfg sid adate store astore).2.1
        (analyzeStock cfg sid adate store astore).2.2 =
      analyzeStock cfg sid adate store astore ∧
    (analyzeStock cfg sid adate store astore).2.2.countP
      (analysisKey sid adate) ≤ 1 := by
  by_cases hguard : store.length < cfg.atrPeriod
  · have hcond : (store.take
        (cfg.atrPeriod + cfg.volumeAvgPeriod + 5)).length < cfg.atrPeriod := by
      rw [List.length_take]
      omega
    have h1 : analyzeStock cfg sid adate store astore =
        (none, store, astore) := by
      simp only [analyzeStock]
      rw [if_pos hcond]
    rw [h1]
    refine ⟨?_, by simpa using hdup⟩
    simpa using h1
  · have hAlen : ((calcPass cfg.atrPeriod
        (store.take (cfg.atrPeriod + cfg.volumeAvgPeriod + 5)).reverse).reverse).length =
          (store.take (cfg.atrPeriod + cfg.volumeAvgPeriod + 5)).length := by
      simp only [List.length_reverse, calcPass, calcGo_length]
    obtain ⟨htake, hdrop⟩ := splice_take_drop store
      ((calcPass cfg.atrPeriod
        (store.take (cfg.atrPeriod + cfg.volumeAvgPeriod + 5)).reverse).reverse)
      (cfg.atrPeriod + cfg.volumeAvgPeriod + 5) hAlen
    have hcond : ¬(store.take
        (cfg.atrPeriod + cfg.volumeAvgPeriod + 5)).length < cfg.atrPeriod := by
      rw [List.length_take]
      omega
    have h1 : analyzeStock cfg sid adate store astore =
        ((analyzeFinish cfg sid adate
            ((((calcPass cfg.atrPeriod
              (store.take (cfg.atrPeriod + cfg.volumeAvgPeriod + 5)).reverse).reverse)
                ++ store.drop (cfg.atrPeriod + cfg.volumeAvgPeriod + 5)).take
                  (cfg.volumeAvgPeriod + 5)) astore).1,
          (((calcPass cfg.atrPeriod
            (store.take (cfg.atrPeriod + cfg.volumeAvgPeriod + 5)).reverse).reverse)
              ++ store.drop (cfg.atrPeriod + cfg.volumeAvgPeriod + 5)),
          (analyzeFinish cfg sid adate
            ((((calcPass cfg.atrPeriod
              (store.take (cfg.atrPeriod + cfg.volumeAvgPeriod + 5)).reverse).reverse)
                ++ store.drop (cfg.atrPeriod + cfg.volumeAvgPeriod + 5)).take
                  (cfg.volumeAvgPeriod + 5)) astore).2) := by
      simp only [analyzeStock]
      rw [if_neg hcond]
    have hcond2 : ¬((((calcPass cfg.atrPeriod
        (store.take (cfg.atrPeriod + cfg.volumeAvgPeriod + 5)).reverse).reverse)
          ++ store.drop (cfg.atrPeriod + cfg.volumeAvgPeriod + 5)).take
            (cfg.atrPeriod + cfg.volumeAvgPeriod + 5)).length < cfg.atrPeriod := by
      rw [htake, hAlen, List.length_take]
      omega
    have hArev : (((calcPass cfg.atrPeriod
        (store.take (cfg.atrPeriod + cfg.volumeAvgPeriod + 5)).reverse).reverse)).reverse =
          calcPass cfg.atrPeriod
            (store.take (cfg.atrPeriod + cfg.volumeAvgPeriod + 5)).reverse :=
      List.reverse_reverse _
    have h2 : analyzeStock cfg sid adate
        ((((calcPass cfg.atrPeriod
          (store.take (cfg.atrPeriod + cfg.volumeAvgPeriod + 5)).reverse).reverse)
            ++ store.drop (cfg.atrPeriod + cfg.volumeAvgPeriod + 5)))
        (analyzeFinish cfg sid adate
          ((((calcPass cfg.atrPeriod
            (store.take (cfg.atrPeriod + cfg.volumeAvgPeriod + 5)).reverse).reverse)
              ++ store.drop (cfg.atrPeriod + cfg.volumeAvgPeriod + 5)).take
                (cfg.volumeAvgPeriod + 5)) astore).2 =
        ((analyzeFinish cfg sid adate
            ((((calcPass cfg.atrPeriod
              (store.take (cfg.atrPeriod + cfg.volumeAvgPeriod + 5)).reverse).reverse)
                ++ store.drop (cfg.atrPeriod + cfg.volumeAvgPeriod + 5)).take
                  (cfg.volumeAvgPeriod + 5)) astore).1,
          (((calcPass cfg.atrPeriod
            (store.take (cfg.atrPeriod + cfg.volumeAvgPeriod + 5)).reverse).reverse)
              ++ store.drop (cfg.atrPeriod + cfg.volumeAvgPeriod + 5)),
          (analyzeFinish cfg sid adate
            ((((calcPass cfg.atrPeriod
              (store.take (cfg.atrPeriod + cfg.volumeAvgPeriod + 5)).reverse).reverse)
                ++ store.drop (cfg.atrPeriod + cfg.volumeAvgPeriod + 5)).take
                  (cfg.volumeAvgPeriod + 5)) astore).2) := by
      simp only [analyzeStock]
      rw [if_neg hcond2, htake, hArev, calcPass_idem, hdrop,
        analyzeFinish_idem]
    rw [h1]
    refine ⟨?_, ?_⟩
    · simpa using h2
    · simpa using analyzeFinish_countP cfg sid adate _ astore hdup

/-- C7 (witness): the idempotence theorem applied to the fourteen-bar
sample store and an empty analysis table. -/
theorem analyze_reanalysis_idempotent_witness :
    (analyzeStock defaultCfg 1 20
        (analyzeStock defaultCfg 1 20 demoStore []).2.1
        (analyzeStock defaultCfg 1 20 demoStore []).2.2 =
      analyzeStock defaultCfg 1 20 demoStore []) ∧
    (analyzeStock defaultCfg 1 20 demoStore []).2.2.countP
      (analysisKey 1 20) ≤ 1 :=
  analyze_reanalysis_idempotent defaultCfg 1 20 demoStore [] (by decide)
